import Mathlib

/-!
Shallow embedding of `bio_files_processor.py`.

A physical line of a text file is modelled as a `List Char`; a line
produced by Python's file iteration keeps its trailing newline
character.  The Python string operations used by the source (`strip`,
`split`, `startswith`, `endswith`, substring membership) are reproduced
on `List Char` with Python's semantics.  Fallible Python operations
(indexing a too-short split result, dictionary lookup of a missing key,
`list.index` of an absent element, writing to a handle opened for
reading, opening a missing file for reading) are modelled with
`Except PyError`.  File-system effects of `select_genes_from_gbk_to_fasta`
and `parse_blast_output` are recorded as an event trace so that the
order of validation relative to output-file creation is observable.
-/

namespace BioFiles

abbrev Line := List Char

/-- Python whitespace, the default character set of `str.strip` and `str.split`. -/
def isPySpace (c : Char) : Bool :=
  c == ' ' || c == '\t' || c == '\n' || c == '\r' || c == '\x0b' || c == '\x0c'

/-- Remove leading and trailing characters satisfying `p` (Python `str.strip(chars)`). -/
def pyStripP (p : Char → Bool) (s : List Char) : List Char :=
  ((s.dropWhile p).reverse.dropWhile p).reverse

/-- Python `s.strip()`. -/
def pyStrip (s : Line) : Line := pyStripP isPySpace s

/-- Python `s.strip('"')`. -/
def pyStripQuotes (s : Line) : Line := pyStripP (fun c => c == '"') s

/-- Python `pat in s` for a fixed substring `pat`. -/
def containsSub (pat : List Char) : List Char → Bool
  | [] => pat.isPrefixOf []
  | c :: rest => pat.isPrefixOf (c :: rest) || containsSub pat rest

/-- Python `s.split(sep)` for a one-character separator: keeps empty parts. -/
def splitOnChar (sep : Char) : List Char → List (List Char)
  | [] => [[]]
  | c :: rest =>
    if c = sep then [] :: splitOnChar sep rest
    else
      match splitOnChar sep rest with
      | [] => [[c]]
      | h :: t => (c :: h) :: t

/-- Helper of `pySplitWs`; `cur` holds the current word reversed. -/
def wordsAux (cur : List Char) : List Char → List (List Char)
  | [] => if cur = [] then [] else [cur.reverse]
  | c :: rest =>
    if isPySpace c then
      if cur = [] then wordsAux [] rest else cur.reverse :: wordsAux [] rest
    else wordsAux (c :: cur) rest

/-- Python `s.split()`: split on whitespace runs, dropping empty parts. -/
def pySplitWs (s : List Char) : List (List Char) := wordsAux [] s

/-- Python `s.split(sep)[0]` for a multi-character separator: the text up to the
first occurrence of `sep`, or all of `s` when `sep` does not occur. -/
def takeUntilSeq (sep : List Char) : List Char → List Char
  | [] => []
  | c :: rest => if sep.isPrefixOf (c :: rest) then [] else c :: takeUntilSeq sep rest

/-- Python dict assignment `d[k] = v`: update the existing key in place, else append. -/
def dictInsert {V : Type} (k : Line) (v : V) : List (Line × V) → List (Line × V)
  | [] => [(k, v)]
  | (k', v') :: rest => if k' = k then (k, v) :: rest else (k', v') :: dictInsert k v rest

/-- Python dict lookup `d[k]` as an `Option`. -/
def dictGet? {V : Type} (k : Line) : List (Line × V) → Option V
  | [] => none
  | (k', v') :: rest => if k' = k then some v' else dictGet? k rest

/-- `os.path.basename` on a POSIX path. -/
def basename (p : Line) : Line := (splitOnChar '/' p).getLastD []

/-- Python `s.split('.')[0]` (the part of a file name before its first dot). -/
def stemOf (s : Line) : Line := (splitOnChar '.' s).headD []

/-- The Python exceptions the source can raise. -/
inductive PyError where
  | fileNotFound
  | notWritable
  | indexError
  | keyError (key : Line)
  | valueError (msg : Line)
deriving DecidableEq

instance {ε α : Type} [DecidableEq ε] [DecidableEq α] : DecidableEq (Except ε α) := fun x y =>
  match x, y with
  | .error a, .error b => if h : a = b then .isTrue (by rw [h]) else .isFalse (by simp [h])
  | .ok a, .ok b => if h : a = b then .isTrue (by rw [h]) else .isFalse (by simp [h])
  | .error _, .ok _ => .isFalse (by simp)
  | .ok _, .error _ => .isFalse (by simp)

/-- Mode of a Python `open()` call. -/
inductive FileMode where
  | read
  | write
deriving DecidableEq

/-- An open Python file handle together with the bytes written through it. -/
structure FileHandle where
  mode : FileMode
  contents : List Char
deriving DecidableEq

/-- `open(path, mode)`: opening a missing path for reading raises `FileNotFoundError`. -/
def pyOpen (pathExists : Bool) (m : FileMode) : Except PyError FileHandle :=
  match m with
  | .read => if pathExists then .ok ⟨.read, []⟩ else .error .fileNotFound
  | .write => .ok ⟨.write, []⟩

/-- `f.write(s)`: raises `io.UnsupportedOperation` on a handle opened for reading. -/
def hWrite (h : FileHandle) (s : List Char) : Except PyError FileHandle :=
  match h.mode with
  | .read => .error .notWritable
  | .write => .ok ⟨.write, h.contents ++ s⟩

/-- File-system effects performed by an invocation, in order. -/
inductive FsEvent where
  | openRead
  | makeDirs
  | openWrite
  | writeRec (r : Line)
deriving DecidableEq

/-! ### convert_multiline_fasta_to_oneline

The loop body of `convert_multiline_fasta_to_oneline` (source lines 22-31).
Note two faithfully preserved source facts: the output handle is opened
with no mode argument, hence for reading (line 21), and the accumulator
update on a non-header line is `seq = f'{seq}\n'` (line 30), which
appends a newline and discards the line's characters. -/

def convertLoop (fout : FileHandle) (seq : List Char) : List Line → Except PyError FileHandle
  | [] => hWrite fout seq
  | l :: ls =>
    if (">".data).isPrefixOf l then
      if seq ≠ [] then
        match hWrite fout (seq ++ "\n".data) with
        | .error e => .error e
        | .ok fout =>
          match hWrite fout l with
          | .error e => .error e
          | .ok fout => convertLoop fout [] ls
      else
        match hWrite fout l with
        | .error e => .error e
        | .ok fout => convertLoop fout [] ls
    else convertLoop fout (seq ++ "\n".data) ls

/-- `convert_multiline_fasta_to_oneline`: open the input for reading, open the
derived output path for reading (source line 21 passes no mode), run the loop. -/
def runConvert (inputExists outputExists : Bool) (lines : List Line) :
    Except PyError FileHandle :=
  match pyOpen inputExists .read with
  | .error e => .error e
  | .ok _ =>
    match pyOpen outputExists .read with
    | .error e => .error e
    | .ok fout => convertLoop fout [] lines

/-! ### select_genes_from_gbk_to_fasta: parsing pass (source lines 48-74) -/

/-- The mutable state of the GenBank parsing loop. -/
structure GbkState where
  cds_coord_list : List Line
  coord_cds_dict : List (Line × (Line × Line))
  genes_names_dict : List (Line × Line)
  translation_seq : List Line
  record_translation : Bool
  gene_name : Line
  coord : Line
deriving DecidableEq

def initGbkState : GbkState :=
  { cds_coord_list := []
    coord_cds_dict := []
    genes_names_dict := []
    translation_seq := []
    record_translation := false
    gene_name := []
    coord := [] }

/-- `line.strip().startswith('CDS ')`. -/
def isCDSLine (l : Line) : Bool := ("CDS ".data).isPrefixOf (pyStrip l)

/-- `line.strip().startswith('ORIGIN')`. -/
def isOriginLine (l : Line) : Bool := ("ORIGIN".data).isPrefixOf (pyStrip l)

/-- First `if`/`elif` chain of the parsing loop (source lines 57-66):
CDS lines finalize the previous entry and start a new coordinate; `/gene`
lines record the quoted gene name against the current coordinate. -/
def stepChain1 (st : GbkState) (line : Line) : Except PyError GbkState :=
  if isCDSLine line then
    let st :=
      if st.coord ≠ [] then
        { st with
          coord_cds_dict :=
            dictInsert st.coord (st.gene_name, st.translation_seq.flatten) st.coord_cds_dict
          translation_seq := [] }
      else st
    match (pySplitWs line)[1]? with
    | none => .error .indexError
    | some coord =>
      .ok { st with
        coord := coord
        cds_coord_list := st.cds_coord_list ++ [coord]
        record_translation := false }
  else if containsSub ("/gene".data) line then
    match (splitOnChar '"' line)[1]? with
    | none => .error .indexError
    | some name =>
      .ok { st with
        gene_name := name
        genes_names_dict := dictInsert name st.coord st.genes_names_dict }
  else .ok st

/-- Second `if`/`elif` chain of the parsing loop (source lines 67-74):
translation recording, `/translation` seeding, and the `ORIGIN` marker. -/
def stepChain2 (st : GbkState) (line : Line) : Except PyError GbkState :=
  if st.record_translation then
    .ok { st with translation_seq := st.translation_seq ++ [pyStripQuotes (pyStrip line)] }
  else if containsSub ("/translation".data) line then
    match (splitOnChar '"' (pyStrip line))[1]? with
    | none => .error .indexError
    | some seed =>
      .ok { st with
        record_translation := true
        translation_seq := st.translation_seq ++ [seed] }
  else if isOriginLine line then
    .ok { st with
      record_translation := false
      coord_cds_dict :=
        dictInsert st.coord (st.gene_name, st.translation_seq.flatten) st.coord_cds_dict }
  else .ok st

/-- One iteration of the parsing loop: both chains run on every line. -/
def stepLine (st : GbkState) (line : Line) : Except PyError GbkState :=
  match stepChain1 st line with
  | .error e => .error e
  | .ok st' => stepChain2 st' line

/-- The whole single forward parsing pass. -/
def parseLines (st : GbkState) : List Line → Except PyError GbkState
  | [] => .ok st
  | l :: ls =>
    match stepLine st l with
    | .error e => .error e
    | .ok st' => parseLines st' ls

/-! ### select_genes_from_gbk_to_fasta: selection pass (source lines 76-96) -/

def beforeMsg : Line :=
  "Too many neighbours CDSs before gene of interest are requested. Change number!".data

def afterMsg : Line :=
  "Too many neighbours CDSs after gene of interest are requested. Change number!".data

/-- Python `list.index(x)`: first position of `x`, `ValueError` when absent. -/
def pyIndexOf (x : Line) : List Line → Except PyError Nat
  | [] => .error (.valueError ("is not in list".data))
  | y :: ys => if y = x then .ok 0 else (pyIndexOf x ys).map (· + 1)

/-- The `for gene in genes` loop (source lines 78-85).  Each iteration
overwrites `acc` (`cds_of_interest`) with the window of the current gene. -/
def selectLoop (st : GbkState) (nb na : Nat) (acc : List Line) :
    List Line → Except PyError (List Line)
  | [] => .ok acc
  | g :: gs =>
    match dictGet? g st.genes_names_dict with
    | none => .error (.keyError g)
    | some coord =>
      match pyIndexOf coord st.cds_coord_list with
      | .error e => .error e
      | .ok p =>
        if (st.cds_coord_list.take p).length < nb then .error (.valueError beforeMsg)
        else if (st.cds_coord_list.drop p).length < na then .error (.valueError afterMsg)
        else selectLoop st nb na ((st.cds_coord_list.drop (p - nb)).take (nb + na + 1)) gs

/-- Everything `select_genes_from_gbk_to_fasta` does before it creates the
output directory and file: parse, then run the selection loop. -/
def selectPhase (lines genes : List Line) (nb na : Nat) :
    Except PyError (GbkState × List Line) :=
  match parseLines initGbkState lines with
  | .error e => .error e
  | .ok st =>
    match selectLoop st nb na [] genes with
    | .error e => .error e
    | .ok w => .ok (st, w)

/-- The output-writing loop (source lines 95-96); `coord_cds_dict[cds]` can
raise `KeyError` for an entry that was never finalized. -/
def writeLoop (st : GbkState) : List Line → List FsEvent × Except PyError Unit
  | [] => ([], .ok ())
  | c :: cs =>
    match dictGet? c st.coord_cds_dict with
    | none => ([], .error (.keyError c))
    | some (g, t) =>
      let entry := (">".data) ++ c ++ (" gene:".data) ++ g ++ ("\n".data) ++ t ++ ("\n".data)
      let rest := writeLoop st cs
      (FsEvent.writeRec entry :: rest.1, rest.2)

/-- `select_genes_from_gbk_to_fasta` as an event trace: the input is opened
for reading, parsing and selection run, and only then the output directory
is created and the output file opened for writing (source lines 87-96). -/
def runSelect (inputExists : Bool) (lines genes : List Line) (nb na : Nat) :
    List FsEvent × Except PyError Unit :=
  if inputExists then
    match selectPhase lines genes nb na with
    | .error e => ([FsEvent.openRead], .error e)
    | .ok (st, w) =>
      let wr := writeLoop st w
      ([FsEvent.openRead, FsEvent.makeDirs, FsEvent.openWrite] ++ wr.1, wr.2)
  else ([], .error .fileNotFound)

/-! ### change_fasta_start_pos (source lines 117-122) -/

/-- `line[shift:] + line[:shift]` for a non-negative shift. -/
def rotateLine (line : Line) (shift : Nat) : Line := line.drop shift ++ line.take shift

/-- What `change_fasta_start_pos` writes for each input line: headers pass
through with an extra newline, other lines are rotated. -/
def changeFastaLines (shift : Nat) (lines : List Line) : List Line :=
  lines.map (fun l => if (">".data).isPrefixOf l then l ++ "\n".data else rotateLine l shift)

/-! ### parse_blast_output (source lines 137-157) -/

/-- `line.split('    ')[0]`. -/
def blastCapture (l : Line) : Line := takeUntilSeq ("    ".data) l

/-- The scanning loop of `parse_blast_output` (source lines 139-150), with
its two flags; the first branch does not reset the `description` flag. -/
def blastLoop (query description : Bool) (acc : List Line) : List Line → List Line
  | [] => acc
  | l :: ls =>
    if ("Query #".data).isPrefixOf l then blastLoop true description acc ls
    else if query && ("Description  ".data).isPrefixOf l then blastLoop query true acc ls
    else if query && description then blastLoop false false (acc ++ [blastCapture l]) ls
    else blastLoop query description acc ls

def parseBlastLines (lines : List Line) : List Line := blastLoop false false [] lines

/-- Output-name derivation of `parse_blast_output` (source lines 151-154):
the default is `best_<input stem>.txt`; a custom name not ending in `.txt`
gets `.fasta` appended. -/
def blastOutputName (input : Line) (output? : Option Line) : Line :=
  let name :=
    match output? with
    | none => ("best_".data) ++ stemOf (basename input) ++ (".txt".data)
    | some n => n
  if (".txt".data).isSuffixOf name then name else name ++ ".fasta".data

/-- `parse_blast_output` as an event trace: scanning happens while the input
is open for reading; the output file is opened for writing only afterwards. -/
def runBlast (inputExists : Bool) (lines : List Line) : List FsEvent × Except PyError Unit :=
  if inputExists then
    let results := parseBlastLines lines
    ([FsEvent.openRead, FsEvent.openWrite] ++
      results.map (fun r => FsEvent.writeRec (r ++ "\n".data)), .ok ())
  else ([], .error .fileNotFound)

/-! ### Generic helper lemmas -/

lemma isPrefixOf_append_right (l t : List Char) : l.isPrefixOf (l ++ t) = true := by
  induction l with
  | nil => simp [List.isPrefixOf]
  | cons c cs ih => simp [List.isPrefixOf, ih]

lemma isSuffixOf_append_left (s t : List Char) : s.isSuffixOf (t ++ s) = true := by
  unfold List.isSuffixOf
  rw [List.reverse_append]
  exact isPrefixOf_append_right _ _

lemma isPrefixOf_head_eq {a b : Char} {s t u : List Char}
    (ha : (a :: s).isPrefixOf u = true) (hb : (b :: t).isPrefixOf u = true) : a = b := by
  cases u with
  | nil => simp [List.isPrefixOf] at ha
  | cons c v =>
    simp only [List.isPrefixOf, Bool.and_eq_true, beq_iff_eq] at ha hb
    exact ha.1.trans hb.1.symm

lemma not_query_of_description {s : Line}
    (h : ("Description  ".data).isPrefixOf s = true) :
    ("Query #".data).isPrefixOf s = false := by
  cases hq : ("Query #".data).isPrefixOf s with
  | false => rfl
  | true =>
    have h1 : ('Q' :: "uery #".data).isPrefixOf s = true := hq
    have h2 : ('D' :: "escription  ".data).isPrefixOf s = true := h
    exact absurd (isPrefixOf_head_eq h1 h2) (by decide)

lemma origin_not_cds {l : Line} (h : isOriginLine l = true) : isCDSLine l = false := by
  unfold isOriginLine at h
  unfold isCDSLine
  cases hc : ("CDS ".data).isPrefixOf (pyStrip l) with
  | false => rfl
  | true =>
    have h1 : ('O' :: "RIGIN".data).isPrefixOf (pyStrip l) = true := h
    have h2 : ('C' :: "DS ".data).isPrefixOf (pyStrip l) = true := hc
    exact absurd (isPrefixOf_head_eq h1 h2) (by decide)

/-! ### convert_multiline_fasta_to_oneline: claims C1 and C2 -/

lemma convertLoop_readonly (fout : FileHandle) (h : fout.mode = .read) :
    ∀ (lines : List Line) (seq : List Char),
      convertLoop fout seq lines = .error .notWritable := by
  intro lines
  induction lines with
  | nil => intro seq; simp [convertLoop, hWrite, h]
  | cons l ls ih =>
    intro seq
    simp only [convertLoop]
    by_cases hh : (">".data).isPrefixOf l
    · simp only [hh, if_true]
      by_cases hs : seq ≠ []
      · simp [hs, hWrite, h]
      · simp [hs, hWrite, h]
    · simp only [hh, Bool.false_eq_true, if_false]
      exact ih _

/-- Claim C2 (confirmed): the output handle of
`convert_multiline_fasta_to_oneline` is opened without a write mode (source
line 21), so with the input present the invocation always fails: when the
derived output path does not exist, opening it for reading raises
`FileNotFoundError` before anything is written; when it exists, the first
`write` call on the read-mode handle raises a not-writable error.  When the
input itself is missing the call fails even earlier.  Hence no invocation
ever produces a flattened output file. -/
theorem c2_output_opened_readonly (outputExists : Bool) (lines : List Line) :
    runConvert true outputExists lines =
      .error (if outputExists then PyError.notWritable else PyError.fileNotFound) ∧
    runConvert false outputExists lines = .error .fileNotFound := by
  constructor
  · cases outputExists with
    | false => rfl
    | true =>
      show convertLoop ⟨.read, []⟩ [] lines = .error .notWritable
      exact convertLoop_readonly ⟨.read, []⟩ rfl lines []
  · rfl

def c1Lines : List Line := [">seq1\n".data, "ACGT\n".data, "TTTT\n".data]

/-- Claim C1 (code bug): on the spec's own example input
`>seq1\nACGT\nTTTT\n` the function produces no output at all — the output
handle is opened for reading (source line 21), so the call raises instead of
writing the flattened file the docstring promises.  Moreover, even with a
writable handle the loop would emit `>seq1\n` followed by bare newlines,
because the accumulator update `seq = f'{seq}\n'` (source line 30) discards
the sequence characters; the flattened content `ACGTTTTT` is never formed. -/
theorem c1_flattener_code_bug :
    runConvert true true c1Lines = .error .notWritable ∧
    runConvert true false c1Lines = .error .fileNotFound ∧
    convertLoop ⟨.write, []⟩ [] c1Lines = .ok ⟨.write, ">seq1\n\n\n".data⟩ ∧
    ">seq1\n\n\n".data ≠ ">seq1\nACGTTTTT\n".data := by
  refine ⟨?_, rfl, by decide, by decide⟩
  show convertLoop ⟨.read, []⟩ [] c1Lines = .error .notWritable
  exact convertLoop_readonly ⟨.read, []⟩ rfl c1Lines []

/-! ### change_fasta_start_pos: claim C5 -/

/-- Claim C5 (confirmed): rotating a physical line by `shift` and then
rotating the result by `line_length - shift` (mod the line length) restores
the original line, for every `0 ≤ shift ≤ line_length`, where `line_length`
is the length of the string the source hands to the slicing expression
`line[shift:] + line[:shift]` (the physical line, including its trailing
newline when one is present). -/
theorem c5_rotate_roundtrip (line : Line) (shift : Nat) (h : shift ≤ line.length) :
    rotateLine (rotateLine line shift) ((line.length - shift) % line.length) = line := by
  rcases Nat.eq_zero_or_pos line.length with h0 | hpos
  · have hnil : line = [] := List.eq_nil_of_length_eq_zero h0
    subst hnil
    simp [rotateLine]
  · have h1 : rotateLine line shift = line.rotate shift :=
      (List.rotate_eq_drop_append_take h).symm
    have hlen : (line.rotate shift).length = line.length := List.length_rotate line shift
    have hm : (line.length - shift) % line.length ≤ (line.rotate shift).length := by
      rw [hlen]
      exact le_trans (Nat.mod_le _ _) (Nat.sub_le _ _)
    rw [h1]
    unfold rotateLine
    rw [← List.rotate_eq_drop_append_take hm, List.rotate_rotate]
    rcases Nat.eq_zero_or_pos shift with hs0 | hspos
    · subst hs0
      simp [Nat.mod_self]
    · have he : (line.length - shift) % line.length = line.length - shift :=
        Nat.mod_eq_of_lt (by omega)
      rw [he, show shift + (line.length - shift) = line.length by omega,
        List.rotate_length]

theorem c5_rotate_roundtrip_witness :
    1 ≤ ("ACGT\n".data).length ∧
    rotateLine (rotateLine ("ACGT\n".data) 1)
      ((("ACGT\n".data).length - 1) % ("ACGT\n".data).length) = "ACGT\n".data :=
  ⟨by decide, c5_rotate_roundtrip ("ACGT\n".data) 1 (by decide)⟩

/-! ### parse_blast_output naming: claim C9 -/

/-- Claim C9 (confirmed): with no output name given, `parse_blast_output`
derives `best_<input stem>.txt`; with a custom output name that does not end
in `.txt`, the source appends `.fasta` rather than `.txt` (source lines
151-154). -/
theorem c9_blast_naming (input name : Line)
    (h : (".txt".data).isSuffixOf name = false) :
    blastOutputName input none =
      ("best_".data) ++ stemOf (basename input) ++ (".txt".data) ∧
    blastOutputName input (some name) = name ++ ".fasta".data := by
  constructor
  · show (if (".txt".data).isSuffixOf
        (("best_".data) ++ stemOf (basename input) ++ (".txt".data)) then _ else _) = _
    rw [isSuffixOf_append_left (".txt".data) (("best_".data) ++ stemOf (basename input)),
      if_pos rfl]
  · show (if (".txt".data).isSuffixOf name then _ else _) = _
    rw [h]
    simp

theorem c9_blast_naming_witness :
    (".txt".data).isSuffixOf ("res".data) = false ∧
    blastOutputName ("data/in.blast".data) none =
      ("best_".data) ++ stemOf (basename ("data/in.blast".data)) ++ (".txt".data) ∧
    blastOutputName ("data/in.blast".data) (some ("res".data)) = ("res".data) ++ ".fasta".data :=
  ⟨by decide, (c9_blast_naming ("data/in.blast".data) ("res".data) (by decide)).1,
    (c9_blast_naming ("data/in.blast".data) ("res".data) (by decide)).2⟩

/-! ### select_genes_from_gbk_to_fasta: parsing invariants (claim C6) -/

lemma mem_dictInsert {V : Type} (k : Line) (v : V) :
    ∀ (d : List (Line × V)) (pr : Line × V),
      pr ∈ dictInsert k v d → pr = (k, v) ∨ pr ∈ d := by
  intro d
  induction d with
  | nil =>
    intro pr h
    simp [dictInsert] at h
    exact Or.inl h
  | cons kv rest ih =>
    obtain ⟨k', v'⟩ := kv
    intro pr h
    simp only [dictInsert] at h
    by_cases he : k' = k
    · rw [if_pos he] at h
      rcases List.mem_cons.mp h with h | h
      · exact Or.inl h
      · exact Or.inr (List.mem_cons_of_mem _ h)
    · rw [if_neg he] at h
      rcases List.mem_cons.mp h with h | h
      · exact Or.inr (by rw [h]; exact List.mem_cons_self _ _)
      · rcases ih pr h with h2 | h2
        · exact Or.inl h2
        · exact Or.inr (List.mem_cons_of_mem _ h2)

/-- The parsing-loop invariant behind claim C6: the tracked coordinate is in
the ordered coordinate list or still the initial empty string, and so is
every coordinate recorded in the gene index. -/
def gbkInv (st : GbkState) : Prop :=
  (st.coord ∈ st.cds_coord_list ∨ st.coord = []) ∧
  ∀ pr ∈ st.genes_names_dict, pr.2 ∈ st.cds_coord_list ∨ pr.2 = []

lemma stepChain1_cases (st st' : GbkState) (l : Line) (h : stepChain1 st l = .ok st') :
    (∃ c, st'.cds_coord_list = st.cds_coord_list ++ [c] ∧ st'.coord = c ∧
        st'.genes_names_dict = st.genes_names_dict ∧ isCDSLine l = true) ∨
    (st'.cds_coord_list = st.cds_coord_list ∧ st'.coord = st.coord ∧
      (∃ name, st'.genes_names_dict = dictInsert name st.coord st.genes_names_dict) ∧
      isCDSLine l = false) ∨
    (st'.cds_coord_list = st.cds_coord_list ∧ st'.coord = st.coord ∧
      st'.genes_names_dict = st.genes_names_dict ∧ isCDSLine l = false) := by
  unfold stepChain1 at h
  by_cases hc : isCDSLine l = true
  · rw [if_pos hc] at h
    cases hm : (pySplitWs l)[1]? with
    | none => rw [hm] at h; exact absurd h (by simp)
    | some c =>
      rw [hm] at h
      simp only [Except.ok.injEq] at h
      refine Or.inl ⟨c, ?_, by rw [← h], ?_, hc⟩ <;>
        · rw [← h]
          by_cases hco : st.coord ≠ []
          · rw [if_pos hco]
          · rw [if_neg hco]
  · rw [if_neg hc] at h
    by_cases hg : containsSub ("/gene".data) l = true
    · rw [if_pos hg] at h
      cases hm : (splitOnChar '"' l)[1]? with
      | none => rw [hm] at h; exact absurd h (by simp)
      | some name =>
        rw [hm] at h
        simp only [Except.ok.injEq] at h
        refine Or.inr (Or.inl ⟨?_, ?_, ⟨name, ?_⟩, by simpa using hc⟩) <;> rw [← h]
    · rw [if_neg hg] at h
      simp only [Except.ok.injEq] at h
      exact Or.inr (Or.inr ⟨by rw [← h], by rw [← h], by rw [← h], by simpa using hc⟩)

lemma stepChain2_fields (st st' : GbkState) (l : Line) (h : stepChain2 st l = .ok st') :
    st'.cds_coord_list = st.cds_coord_list ∧
    st'.genes_names_dict = st.genes_names_dict ∧
    st'.coord = st.coord := by
  unfold stepChain2 at h
  by_cases hr : st.record_translation = true
  · rw [if_pos hr] at h
    simp only [Except.ok.injEq] at h
    rw [← h]
    exact ⟨rfl, rfl, rfl⟩
  · rw [if_neg hr] at h
    by_cases ht : containsSub ("/translation".data) l = true
    · rw [if_pos ht] at h
      cases hm : (splitOnChar '"' (pyStrip l))[1]? with
      | none => rw [hm] at h; exact absurd h (by simp)
      | some seed =>
        rw [hm] at h
        simp only [Except.ok.injEq] at h
        rw [← h]
        exact ⟨rfl, rfl, rfl⟩
    · rw [if_neg ht] at h
      by_cases ho : isOriginLine l = true
      · rw [if_pos ho] at h
        simp only [Except.ok.injEq] at h
        rw [← h]
        exact ⟨rfl, rfl, rfl⟩
      · rw [if_neg ho] at h
        simp only [Except.ok.injEq] at h
        rw [← h]
        exact ⟨rfl, rfl, rfl⟩

lemma stepLine_list_length (st st' : GbkState) (l : Line) (h : stepLine st l = .ok st') :
    st'.cds_coord_list.length =
      st.cds_coord_list.length + (if isCDSLine l then 1 else 0) := by
  unfold stepLine at h
  cases h1 : stepChain1 st l with
  | error e => rw [h1] at h; exact absurd h (by simp)
  | ok st1 =>
    rw [h1] at h
    rw [(stepChain2_fields st1 st' l h).1]
    rcases stepChain1_cases st st1 l h1 with ⟨c, hl, -, -, hc⟩ | ⟨hl, -, -, hc⟩ | ⟨hl, -, -, hc⟩ <;>
      simp [hl, hc]

lemma stepLine_inv (st st' : GbkState) (l : Line) (h : stepLine st l = .ok st')
    (hinv : gbkInv st) : gbkInv st' := by
  unfold stepLine at h
  cases h1 : stepChain1 st l with
  | error e => rw [h1] at h; exact absurd h (by simp)
  | ok st1 =>
    rw [h1] at h
    obtain ⟨e1, e2, e3⟩ := stepChain2_fields st1 st' l h
    have hinv1 : gbkInv st1 := by
      rcases stepChain1_cases st st1 l h1 with ⟨c, hl, hco, hg, -⟩ | ⟨hl, hco, ⟨name, hg⟩, -⟩ |
          ⟨hl, hco, hg, -⟩
      · constructor
        · rw [hco, hl]
          exact Or.inl (List.mem_append_right _ (List.mem_singleton.mpr rfl))
        · intro pr hpr
          rw [hg] at hpr
          rcases hinv.2 pr hpr with h2 | h2
          · exact Or.inl (by rw [hl]; exact List.mem_append_left _ h2)
          · exact Or.inr h2
      · constructor
        · rw [hco, hl]; exact hinv.1
        · intro pr hpr
          rw [hg] at hpr
          rcases mem_dictInsert name st.coord st.genes_names_dict pr hpr with h2 | h2
          · rw [h2, hl]
            exact hinv.1
          · rw [hl]
            exact hinv.2 pr h2
      · constructor
        · rw [hco, hl]; exact hinv.1
        · intro pr hpr
          rw [hg] at hpr
          rw [hl]
          exact hinv.2 pr hpr
    constructor
    · rw [e1, e3]; exact hinv1.1
    · intro pr hpr
      rw [e2] at hpr
      rw [e1]
      exact hinv1.2 pr hpr

lemma parseLines_length : ∀ (lines : List Line) (st st' : GbkState),
    parseLines st lines = .ok st' →
    st'.cds_coord_list.length =
      st.cds_coord_list.length + (lines.filter (fun l => isCDSLine l)).length := by
  intro lines
  induction lines with
  | nil =>
    intro st st' h
    simp only [parseLines, Except.ok.injEq] at h
    rw [← h]
    simp
  | cons l ls ih =>
    intro st st' h
    simp only [parseLines] at h
    cases h1 : stepLine st l with
    | error e => rw [h1] at h; exact absurd h (by simp)
    | ok st1 =>
      rw [h1] at h
      rw [ih st1 st' h, stepLine_list_length st st1 l h1, List.filter_cons]
      by_cases hc : isCDSLine l = true
      · simp [hc]
        omega
      · simp [hc]

lemma parseLines_inv : ∀ (lines : List Line) (st st' : GbkState),
    parseLines st lines = .ok st' → gbkInv st → gbkInv st' := by
  intro lines
  induction lines with
  | nil =>
    intro st st' h hi
    simp only [parseLines, Except.ok.injEq] at h
    rw [← h]
    exact hi
  | cons l ls ih =>
    intro st st' h hi
    simp only [parseLines] at h
    cases h1 : stepLine st l with
    | error e => rw [h1] at h; exact absurd h (by simp)
    | ok st1 =>
      rw [h1] at h
      exact ih st1 st' h (stepLine_inv st st1 l h1 hi)

/-- Claim C6 (corrected): after a successful parse the ordered coordinate
list has exactly one entry per line whose trimmed content starts with
`CDS `, and every gene recorded in the gene index maps to a coordinate that
is in that list — or to the empty string, which happens exactly when the
`/gene` line was seen before any `CDS` line (the original claim's unrestricted
second half fails on such inputs, see the counterexample). -/
theorem c6_parse_invariants (lines : List Line) (st : GbkState)
    (h : parseLines initGbkState lines = .ok st) :
    st.cds_coord_list.length = (lines.filter (fun l => isCDSLine l)).length ∧
    ∀ pr ∈ st.genes_names_dict, pr.2 ∈ st.cds_coord_list ∨ pr.2 = [] := by
  have h1 := parseLines_length lines initGbkState st h
  have h2 := parseLines_inv lines initGbkState st h
    ⟨Or.inr rfl, by intro pr hpr; exact absurd hpr (by simp [initGbkState])⟩
  exact ⟨by simpa [initGbkState] using h1, h2.2⟩

def c6Lines : List Line := ["CDS 10 x\n".data, "/gene=\"g\"\n".data]

def stC6 : GbkState :=
  ⟨["10".data], [], [("g".data, "10".data)], [], false, "g".data, "10".data⟩

theorem c6_parse_invariants_witness :
    parseLines initGbkState c6Lines = .ok stC6 ∧
    (stC6.cds_coord_list.length = (c6Lines.filter (fun l => isCDSLine l)).length ∧
      ∀ pr ∈ stC6.genes_names_dict, pr.2 ∈ stC6.cds_coord_list ∨ pr.2 = []) :=
  ⟨by decide, c6_parse_invariants c6Lines stC6 (by decide)⟩

def c6BadLine : Line := "/gene=\"x\"\n".data

/-- The gene-index property exactly as claim C6 states it: every recorded
gene name maps to a coordinate present in the ordered coordinate list. -/
def geneIndexMapsIntoList (lines : List Line) : Prop :=
  ∀ st, parseLines initGbkState lines = .ok st →
    ∀ pr ∈ st.genes_names_dict, pr.2 ∈ st.cds_coord_list

/-- Counterexample to claim C6 as stated: a `/gene` line that precedes every
`CDS` line is recorded against the still-empty current coordinate `''`,
which is not an element of the (empty) ordered coordinate list. -/
theorem c6_counterexample : ¬ geneIndexMapsIntoList [c6BadLine] := by
  intro h
  have h2 := h ⟨[], [], [("x".data, [])], [], false, "x".data, []⟩ (by decide)
    ("x".data, ([] : Line)) (by simp)
  simp at h2

/-! ### select_genes_from_gbk_to_fasta: selection (claims C3 and C7) -/

lemma pyIndexOf_lt_length (x : Line) : ∀ (l : List Line) (p : Nat),
    pyIndexOf x l = .ok p → p < l.length := by
  intro l
  induction l with
  | nil => intro p h; simp [pyIndexOf] at h
  | cons y ys ih =>
    intro p h
    unfold pyIndexOf at h
    by_cases he : y = x
    · rw [if_pos he] at h
      simp only [Except.ok.injEq] at h
      rw [← h]
      simp
    · rw [if_neg he] at h
      cases hm : pyIndexOf x ys with
      | error e => rw [hm] at h; exact absurd h (by simp [Except.map])
      | ok q =>
        rw [hm] at h
        simp only [Except.map, Except.ok.injEq] at h
        have hq := ih q hm
        simp only [List.length_cons]
        omega

lemma selectLoop_cons_eq (st : GbkState) (nb na : Nat) (acc : List Line)
    (g : Line) (gs : List Line) (coord : Line) (p : Nat)
    (h1 : dictGet? g st.genes_names_dict = some coord)
    (h2 : pyIndexOf coord st.cds_coord_list = .ok p) :
    selectLoop st nb na acc (g :: gs) =
      (if (st.cds_coord_list.take p).length < nb then .error (.valueError beforeMsg)
        else if (st.cds_coord_list.drop p).length < na then .error (.valueError afterMsg)
        else selectLoop st nb na
          ((st.cds_coord_list.drop (p - nb)).take (nb + na + 1)) gs) := by
  simp only [selectLoop, h1, h2]

/-- Claim C3 (corrected): with the requested gene found at position `p`,
asking for more neighbours before it than the `p` entries that strictly
precede it raises the "before" `ValueError`; the "after" check, however,
compares `n_after` against `len(cds_coord_list[gene_position:])`, which
counts the gene's own entry as well, so the distinct "after" `ValueError` is
raised only when `n_after` exceeds the number of entries from position `p`
to the end of the list (one more than the entries strictly following `p`;
the original strictly-following reading fails, see the counterexample). -/
theorem c3_neighbour_validation (st : GbkState) (g coord : Line) (p nb na : Nat)
    (gs acc : List Line)
    (h1 : dictGet? g st.genes_names_dict = some coord)
    (h2 : pyIndexOf coord st.cds_coord_list = .ok p) :
    (p < nb → selectLoop st nb na acc (g :: gs) = .error (.valueError beforeMsg)) ∧
    (nb ≤ p → st.cds_coord_list.length - p < na →
      selectLoop st nb na acc (g :: gs) = .error (.valueError afterMsg)) ∧
    beforeMsg ≠ afterMsg := by
  have hp : p < st.cds_coord_list.length := pyIndexOf_lt_length coord _ p h2
  have htake : (st.cds_coord_list.take p).length = p := by
    rw [List.length_take]
    omega
  refine ⟨?_, ?_, by decide⟩
  · intro hlt
    rw [selectLoop_cons_eq st nb na acc g gs coord p h1 h2, htake, if_pos hlt]
  · intro hge hlt
    rw [selectLoop_cons_eq st nb na acc g gs coord p h1 h2, htake,
      if_neg (by omega), List.length_drop, if_pos hlt]

def c7Lines : List Line := ["CDS 10 x\n".data, "CDS 20 x\n".data, "/gene=\"g\"\n".data]

def stC7 : GbkState :=
  ⟨["10".data, "20".data], [("10".data, ([], []))], [("g".data, "20".data)], [],
    false, "g".data, "20".data⟩

theorem c3_neighbour_validation_witness :
    (dictGet? ("g".data) stC7.genes_names_dict = some ("20".data) ∧
      pyIndexOf ("20".data) stC7.cds_coord_list = .ok 1) ∧
    selectLoop stC7 2 0 [] ["g".data] = .error (.valueError beforeMsg) ∧
    selectLoop stC7 0 2 [] ["g".data] = .error (.valueError afterMsg) ∧
    beforeMsg ≠ afterMsg :=
  ⟨⟨by decide, by decide⟩,
    (c3_neighbour_validation stC7 ("g".data) ("20".data) 1 2 0 [] []
      (by decide) (by decide)).1 (by decide),
    ((c3_neighbour_validation stC7 ("g".data) ("20".data) 1 0 2 [] []
      (by decide) (by decide)).2).1 (by decide) (by decide),
    (c3_neighbour_validation stC7 ("g".data) ("20".data) 1 0 2 [] []
      (by decide) (by decide)).2.2⟩

/-- Counterexample to claim C3 as stated: in `c6Lines` the gene `g` sits at
position 0 of a one-element coordinate list, so zero entries strictly follow
it; requesting `n_after = 1` exceeds that, yet the run succeeds instead of
raising the "after" validation error, because the source compares `n_after`
with `len(cds_coord_list[gene_position:])`, which still contains the gene's
own entry. -/
theorem c3_counterexample :
    selectPhase c6Lines ["g".data] 0 1 = .ok (stC6, ["10".data]) ∧
    stC6.cds_coord_list.length = 1 := by decide

/-- The window exactly as claim C7 states it: the contiguous slice
`[p - n_before, p + n_after]` inclusive, i.e. `n_before + n_after + 1`
entries read off the coordinate list starting at `p - n_before`. -/
def windowIsFullSpan (l : List Line) (p nb na : Nat) (w : List Line) : Prop :=
  w.length = nb + na + 1 ∧ ∀ i, i < w.length → w[i]? = l[p - nb + i]?

/-- Claim C7 (corrected): a validated gene at position `p` selects the
contiguous slice starting at `p - n_before` of length at most
`n_before + n_after + 1` — the upper end is clipped at the end of the list
(so the claimed inclusive endpoint `p + n_after` is reached only when
`n_after` does not exceed the entries strictly following `p`, see the
counterexample) — and when several genes are requested, the returned window
is the one computed for the last gene, each iteration overwriting the
previous selection. -/
theorem c7_window (st : GbkState) (g coord : Line) (p nb na : Nat)
    (h1 : dictGet? g st.genes_names_dict = some coord)
    (h2 : pyIndexOf coord st.cds_coord_list = .ok p)
    (h3 : nb ≤ p) (h4 : na ≤ st.cds_coord_list.length - p) :
    (∀ acc, selectLoop st nb na acc [g] =
      .ok ((st.cds_coord_list.drop (p - nb)).take (nb + na + 1))) ∧
    ((st.cds_coord_list.drop (p - nb)).take (nb + na + 1)).length =
      nb + 1 + min na (st.cds_coord_list.length - 1 - p) ∧
    (∀ i, i < ((st.cds_coord_list.drop (p - nb)).take (nb + na + 1)).length →
      ((st.cds_coord_list.drop (p - nb)).take (nb + na + 1))[i]? =
        st.cds_coord_list[p - nb + i]?) ∧
    (∀ gs acc w, selectLoop st nb na acc (gs ++ [g]) = .ok w →
      w = (st.cds_coord_list.drop (p - nb)).take (nb + na + 1)) := by
  have hp : p < st.cds_coord_list.length := pyIndexOf_lt_length coord _ p h2
  have htake : (st.cds_coord_list.take p).length = p := by
    rw [List.length_take]
    omega
  have hone : ∀ acc, selectLoop st nb na acc [g] =
      .ok ((st.cds_coord_list.drop (p - nb)).take (nb + na + 1)) := by
    intro acc
    rw [selectLoop_cons_eq st nb na acc g [] coord p h1 h2, htake,
      if_neg (by omega), List.length_drop, if_neg (by omega)]
    rfl
  refine ⟨hone, ?_, ?_, ?_⟩
  · rw [List.length_take, List.length_drop]
    rcases Nat.le_total na (st.cds_coord_list.length - 1 - p) with hle | hle
    · rw [Nat.min_eq_left hle]
      omega
    · rw [Nat.min_eq_right hle]
      omega
  · intro i hi
    rw [List.length_take, List.length_drop] at hi
    rw [List.getElem?_take, if_pos (by omega), List.getElem?_drop]
  · intro gs
    induction gs with
    | nil =>
      intro acc w hw
      rw [List.nil_append, hone acc] at hw
      simp only [Except.ok.injEq] at hw
      exact hw.symm
    | cons g' gs' ih =>
      intro acc w hw
      rw [List.cons_append] at hw
      cases hg : dictGet? g' st.genes_names_dict with
      | none =>
        simp only [selectLoop, hg] at hw
        exact absurd hw (by simp)
      | some c' =>
        cases hidx : pyIndexOf c' st.cds_coord_list with
        | error e =>
          simp only [selectLoop, hg, hidx] at hw
          exact absurd hw (by simp)
        | ok p' =>
          rw [selectLoop_cons_eq st nb na acc g' (gs' ++ [g]) c' p' hg hidx] at hw
          by_cases ha : (st.cds_coord_list.take p').length < nb
          · rw [if_pos ha] at hw
            exact absurd hw (by simp)
          · rw [if_neg ha] at hw
            by_cases hb : (st.cds_coord_list.drop p').length < na
            · rw [if_pos hb] at hw
              exact absurd hw (by simp)
            · rw [if_neg hb] at hw
              exact ih _ w hw

theorem c7_window_witness :
    (dictGet? ("g".data) stC6.genes_names_dict = some ("10".data) ∧
      pyIndexOf ("10".data) stC6.cds_coord_list = .ok 0) ∧
    (∀ acc, selectLoop stC6 0 0 acc [("g".data)] =
      .ok ((stC6.cds_coord_list.drop (0 - 0)).take (0 + 0 + 1))) :=
  ⟨⟨by decide, by decide⟩,
    (c7_window stC6 ("g".data) ("10".data) 0 0 0 (by decide) (by decide)
      (by decide) (by decide)).1⟩

/-- Counterexample to claim C7 as stated: in `c7Lines` the gene `g` sits at
position 1 of a two-element coordinate list; with `n_before = 0` and
`n_after = 1` validation passes, but the selected window is the single entry
`["20"]`, not the two entries that the inclusive span
`[p - n_before, p + n_after] = [1, 2]` would require — the slice is clipped
at the end of the list. -/
theorem c7_counterexample :
    selectPhase c7Lines ["g".data] 0 1 = .ok (stC7, ["20".data]) ∧
    ¬ windowIsFullSpan stC7.cds_coord_list 1 0 1 ["20".data] := by
  constructor
  · decide
  · intro hw
    exact absurd hw.1 (by decide)

/-! ### Claim C10: no output file before validation -/

/-- Claim C10 (confirmed): when the pre-output phase of
`select_genes_from_gbk_to_fasta` fails — a missing input, a requested gene
absent from the gene index, a coordinate absent from the coordinate list, or
either neighbour-window validation error — the failure happens before the
output directory and file are created, so the event trace contains no
output-file opening; likewise `parse_blast_output` with a missing input
fails before its output file is opened. -/
theorem c10_no_output_on_failure (lines genes blines : List Line) (nb na : Nat)
    (e : PyError) (h : selectPhase lines genes nb na = .error e) :
    FsEvent.openWrite ∉ (runSelect true lines genes nb na).1 ∧
    FsEvent.openWrite ∉ (runSelect false lines genes nb na).1 ∧
    FsEvent.openWrite ∉ (runBlast false blines).1 := by
  refine ⟨?_, by simp [runSelect], by simp [runBlast]⟩
  simp [runSelect, h]

theorem c10_no_output_on_failure_witness :
    selectPhase [] ["g".data] 1 1 = .error (.keyError ("g".data)) ∧
    (FsEvent.openWrite ∉ (runSelect true [] ["g".data] 1 1).1 ∧
      FsEvent.openWrite ∉ (runSelect false [] ["g".data] 1 1).1 ∧
      FsEvent.openWrite ∉ (runBlast false []).1) :=
  ⟨rfl, c10_no_output_on_failure [] ["g".data] [] 1 1 (.keyError ("g".data)) rfl⟩

/-! ### The ORIGIN marker: claim C4 -/

/-- Claim C4 (corrected): an `ORIGIN` marker line (one containing neither a
`/gene` nor a `/translation` token) ends feature parsing only when the
translation-recording flag is clear when it arrives: then the flag is left
clear and the last tracked coordinate's entry is finalized into the lookup.
When the flag is still set, the branch that handles `ORIGIN` is shadowed by
the recording branch of the same `if`/`elif` chain: the line's stripped
content is appended to the translation accumulator, the flag stays set, and
no finalization happens (the original "regardless of the flag" reading
fails, see the counterexample). -/
theorem c4_origin_finalizes (st : GbkState) (l : Line)
    (hO : isOriginLine l = true)
    (hnt : containsSub ("/translation".data) l = false)
    (hng : containsSub ("/gene".data) l = false) :
    (st.record_translation = false →
      stepLine st l = .ok { st with
        record_translation := false
        coord_cds_dict :=
          dictInsert st.coord (st.gene_name, st.translation_seq.flatten)
            st.coord_cds_dict }) ∧
    (st.record_translation = true →
      stepLine st l = .ok { st with
        translation_seq := st.translation_seq ++ [pyStripQuotes (pyStrip l)] }) := by
  have hcds : isCDSLine l = false := origin_not_cds hO
  have hch1 : stepChain1 st l = .ok st := by
    unfold stepChain1
    rw [if_neg (by simp [hcds]), if_neg (by simp [hng])]
  constructor
  · intro hr
    unfold stepLine
    rw [hch1]
    show stepChain2 st l = _
    unfold stepChain2
    rw [if_neg (by simp [hr]), if_neg (by simp [hnt]), if_pos hO]
  · intro hr
    unfold stepLine
    rw [hch1]
    show stepChain2 st l = _
    unfold stepChain2
    rw [if_pos hr]

def stC4A : GbkState := ⟨["7".data], [], [], ["MK".data], false, "g".data, "7".data⟩

def stC4B : GbkState := ⟨["7".data], [], [], ["MK".data], true, "g".data, "7".data⟩

theorem c4_origin_finalizes_witness :
    (isOriginLine ("ORIGIN\n".data) = true ∧
      containsSub ("/translation".data) ("ORIGIN\n".data) = false ∧
      containsSub ("/gene".data) ("ORIGIN\n".data) = false) ∧
    stepLine stC4A ("ORIGIN\n".data) = .ok { stC4A with
      record_translation := false
      coord_cds_dict :=
        dictInsert stC4A.coord (stC4A.gene_name, stC4A.translation_seq.flatten)
          stC4A.coord_cds_dict } ∧
    stepLine stC4B ("ORIGIN\n".data) = .ok { stC4B with
      translation_seq := stC4B.translation_seq ++ [pyStripQuotes (pyStrip ("ORIGIN\n".data))] } :=
  ⟨⟨by decide, by decide, by decide⟩,
    (c4_origin_finalizes stC4A ("ORIGIN\n".data) (by decide) (by decide) (by decide)).1 rfl,
    (c4_origin_finalizes stC4B ("ORIGIN\n".data) (by decide) (by decide) (by decide)).2 rfl⟩

def c4Lines : List Line :=
  ["CDS 10 x\n".data, "/translation=\"MK\n".data, "ORIGIN\n".data]

def stC4 : GbkState :=
  ⟨["10".data], [], [], ["MK".data, "ORIGIN".data], true, [], "10".data⟩

/-- Counterexample to claim C4 as stated: here the `ORIGIN` line arrives
while the recording flag is still set (nothing had cleared it), and instead
of ending feature parsing it is swallowed by the recording branch: the final
state still has `record_translation = true`, the `ORIGIN` text was appended
to the translation accumulator, and the last coordinate `10` was never
finalized into the lookup. -/
theorem c4_counterexample :
    parseLines initGbkState c4Lines = .ok stC4 ∧
    stC4.record_translation = true ∧
    stC4.translation_seq = ["MK".data, "ORIGIN".data] ∧
    dictGet? ("10".data) stC4.coord_cds_dict = none := by decide

/-! ### parse_blast_output extraction: claim C8 -/

/-- Well-formedness of one query block `(query line, description line,
detail line)` as described by claim C8: the detail line contains a run of
four consecutive spaces and carries a newline only after that run, and is
not itself one of the two marker lines. -/
def goodBlock (b : Line × Line × Line) : Prop :=
  ("Query #".data).isPrefixOf b.1 = true ∧
  ("Description  ".data).isPrefixOf b.2.1 = true ∧
  ("Query #".data).isPrefixOf b.2.2 = false ∧
  ("Description  ".data).isPrefixOf b.2.2 = false ∧
  ∃ pre post, b.2.2 = pre ++ ("    ".data) ++ post ∧ '\n' ∉ pre

def blastBlockLines (b : Line × Line × Line) : List Line := [b.1, b.2.1, b.2.2]

lemma blastLoop_block_step (q d det : Line) (rest : List Line) (acc : List Line)
    (hq : ("Query #".data).isPrefixOf q = true)
    (hd : ("Description  ".data).isPrefixOf d = true)
    (hnq : ("Query #".data).isPrefixOf det = false)
    (hnd : ("Description  ".data).isPrefixOf det = false) :
    blastLoop false false acc (q :: d :: det :: rest) =
      blastLoop false false (acc ++ [blastCapture det]) rest := by
  have hdq := not_query_of_description hd
  simp [blastLoop, hq, hd, hdq, hnq, hnd]

lemma blastLoop_blocks : ∀ (blocks : List (Line × Line × Line)),
    (∀ b ∈ blocks, goodBlock b) → ∀ acc,
    blastLoop false false acc ((blocks.map blastBlockLines).flatten) =
      acc ++ blocks.map (fun b => blastCapture b.2.2) := by
  intro blocks
  induction blocks with
  | nil => intro _ acc; simp [blastLoop]
  | cons b bs ih =>
    intro H acc
    obtain ⟨hq, hd, hnq, hnd, -⟩ := H b (List.mem_cons_self _ _)
    have hstep := blastLoop_block_step b.1 b.2.1 b.2.2
      ((bs.map blastBlockLines).flatten) acc hq hd hnq hnd
    simp only [List.map_cons, List.flatten_cons, blastBlockLines, List.cons_append,
      List.nil_append]
    rw [hstep, ih (fun x hx => H x (List.mem_cons_of_mem _ hx))]
    simp

lemma takeUntilSeq_no_nl (sep post : List Char) :
    ∀ pre : List Char, '\n' ∉ pre → '\n' ∉ takeUntilSeq sep (pre ++ sep ++ post) := by
  intro pre
  induction pre with
  | nil =>
    intro _
    rw [List.nil_append]
    cases sep with
    | nil =>
      cases post with
      | nil => simp [takeUntilSeq]
      | cons c r => simp [takeUntilSeq, List.isPrefixOf]
    | cons c s' =>
      have he : ((c :: s') ++ post) = c :: (s' ++ post) := rfl
      rw [he]
      unfold takeUntilSeq
      have hpf : (c :: s').isPrefixOf (c :: (s' ++ post)) = true :=
        isPrefixOf_append_right (c :: s') post
      rw [if_pos hpf]
      simp
  | cons a pr ih =>
    intro hpre
    simp only [List.mem_cons, not_or] at hpre
    have : ((a :: pr) ++ sep ++ post) = a :: (pr ++ sep ++ post) := rfl
    rw [this]
    unfold takeUntilSeq
    by_cases hc : sep.isPrefixOf (a :: (pr ++ sep ++ post)) = true
    · rw [if_pos hc]
      simp
    · rw [if_neg hc]
      simp only [List.mem_cons, not_or]
      exact ⟨hpre.1, ih hpre.2⟩

lemma blastCapture_no_nl {det pre post : Line}
    (hdet : det = pre ++ ("    ".data) ++ post) (hpre : '\n' ∉ pre) :
    '\n' ∉ blastCapture det := by
  rw [hdet]
  exact takeUntilSeq_no_nl ("    ".data) post pre hpre

lemma count_nl_flatten : ∀ (rs : List Line), (∀ r ∈ rs, '\n' ∉ r) →
    ((rs.map (fun r => r ++ "\n".data)).flatten).count '\n' = rs.length := by
  intro rs
  induction rs with
  | nil => intro _; simp
  | cons r rest ih =>
    intro h
    simp only [List.map_cons, List.flatten_cons, List.count_append]
    rw [ih (fun x hx => h x (List.mem_cons_of_mem _ hx)),
      List.count_eq_zero.mpr (h r (List.mem_cons_self _ _)),
      show (("\n".data).count '\n') = 1 by decide]
    simp [Nat.add_comm]

/-- Claim C8 (confirmed): on a report consisting of K well-formed query
blocks — a `Query #` line, a `Description  ` line, then one detail line —
the extraction returns exactly one capture per block, the i-th being the
i-th detail line's content up to its first run of four consecutive spaces,
and writing the captures one per line yields exactly K output lines. -/
theorem c8_blast_extraction (blocks : List (Line × Line × Line))
    (H : ∀ b ∈ blocks, goodBlock b) :
    parseBlastLines ((blocks.map blastBlockLines).flatten) =
      blocks.map (fun b => blastCapture b.2.2) ∧
    (blocks.map (fun b => blastCapture b.2.2)).length = blocks.length ∧
    (((blocks.map (fun b => blastCapture b.2.2)).map
      (fun r => r ++ "\n".data)).flatten).count '\n' = blocks.length := by
  refine ⟨?_, by simp, ?_⟩
  · unfold parseBlastLines
    rw [blastLoop_blocks blocks H []]
    simp
  · rw [count_nl_flatten]
    · simp
    · intro r hr
      simp only [List.mem_map] at hr
      obtain ⟨b, hb, hcap⟩ := hr
      obtain ⟨-, -, -, -, pre, post, hdet, hpre⟩ := H b hb
      rw [← hcap]
      exact blastCapture_no_nl hdet hpre

def blkEx : Line × Line × Line :=
  ("Query #1\n".data, "Description  Title\n".data, "hit one    99.9\n".data)

theorem c8_blast_extraction_witness :
    (∀ b ∈ [blkEx], goodBlock b) ∧
    parseBlastLines (([blkEx].map blastBlockLines).flatten) =
      [blkEx].map (fun b => blastCapture b.2.2) ∧
    ((([blkEx].map (fun b => blastCapture b.2.2)).map
      (fun r => r ++ "\n".data)).flatten).count '\n' = [blkEx].length := by
  have H : ∀ b ∈ [blkEx], goodBlock b := by
    intro b hb
    rw [List.mem_singleton.mp hb]
    exact ⟨by decide, by decide, by decide, by decide,
      "hit one".data, "99.9\n".data, by decide, by decide⟩
  exact ⟨H, (c8_blast_extraction [blkEx] H).1, (c8_blast_extraction [blkEx] H).2.2⟩

end BioFiles
